/-
Verification of the w3c-mcp specification/search core against its spec.

Shallow embedding of:
  - src/tools/search-specs.ts   (searchSpecs, quickFindByShortname)
  - src/data/loader.ts          (buildSpecIndices, findSpec, load* caching, clearCache)
  - src/tools/get-webidl.ts     (getWebIDL)
  - src/utils/mapper.ts         (toSpecSummary)

Strings are modelled as Lean `String`, with JavaScript's `toLowerCase`,
`toUpperCase`, `includes` and `split(/\s+/)` modelled character-wise on
`String.data` (per-character ASCII case mapping, as in `Char.toLower`).
JavaScript numbers are modelled as `Rat` (the score arithmetic of the ranker
is exact on the rationals it produces).  A JavaScript `Map` is modelled as an
association list with overwrite-on-set semantics, and the `Promise`-based
memoisation of the loader is modelled as explicit state passing, with the
outcome of the underlying data source supplied as an `Except` parameter.
-/

import Mathlib

/-! ## JavaScript string primitives -/

/-- JavaScript `s.toLowerCase()`, character-wise. -/
def jsToLower (s : String) : String := ⟨s.data.map Char.toLower⟩

/-- JavaScript `s.toUpperCase()`, character-wise. -/
def jsToUpper (s : String) : String := ⟨s.data.map Char.toUpper⟩

/-- Does `p` occur at the head of `s`? (helper for `charsInfixOf`). -/
def charsLeads : List Char → List Char → Bool
  | [], _ => true
  | _ :: _, [] => false
  | p :: ps, c :: cs => p == c && charsLeads ps cs

/-- Does `pat` occur contiguously somewhere in `s`? -/
def charsInfixOf : List Char → List Char → Bool
  | pat, [] => pat.isEmpty
  | pat, c :: cs => charsLeads pat (c :: cs) || charsInfixOf pat cs

/-- JavaScript `s.includes(sub)`. -/
def jsIncludes (s sub : String) : Bool := charsInfixOf sub.data s.data

/-- Split a character list at whitespace (pieces between whitespace runs may be
empty, exactly like `String.split`; the ranker filters them out by length). -/
def wordsAux : List Char → List Char → List (List Char)
  | [], acc => [acc.reverse]
  | c :: cs, acc =>
    if c.isWhitespace then acc.reverse :: wordsAux cs [] else wordsAux cs (c :: acc)

/-- JavaScript `s.split(/\s+/)` up to empty pieces (which the ranker discards). -/
def jsSplitWS (s : String) : List String := (wordsAux s.data []).map String.mk

/-- The query words of the ranker: whitespace-split pieces of length `> 2`
(`lowerQuery.split(/\s+/).filter(w => w.length > 2)`). -/
def queryWordsOf (lowerQuery : String) : List String :=
  (jsSplitWS lowerQuery).filter (fun w => w.length > 2)

/-- JavaScript `a || b` on two `string | undefined` values: `a` when it is a
nonempty string, otherwise `b`. -/
def jsOrUndef (a b : Option String) : Option String :=
  match a with
  | some s => if s = "" then b else some s
  | none => b

/-! ## Data model (src/types/index.ts, fields read by the core) -/

/-- `release?: { url: string; status?: string }` of a specification record. -/
structure SpecRelease where
  url : String
  status : Option String
deriving DecidableEq

/-- `nightly?: { url: string; status?: string }` of a specification record. -/
structure SpecNightly where
  url : String
  status : Option String
deriving DecidableEq

/-- `series?: { shortname: string; currentSpecification?: string }`. -/
structure SpecSeries where
  shortname : String
  currentSpecification : Option String
deriving DecidableEq

/-- A specification record (`SpecDetail`), restricted to the fields the
resolver, ranker and mappers read. -/
structure SpecDetail where
  shortname : String
  title : String
  url : String
  abstract : Option String
  organization : Option String
  release : Option SpecRelease
  nightly : Option SpecNightly
  series : Option SpecSeries
  categories : Option (List String)
deriving DecidableEq

/-- The series alias of a record, `spec.series?.shortname`. -/
def seriesShortOf (s : SpecDetail) : Option String := s.series.map SpecSeries.shortname

/-- `matchType` of a search result. -/
inductive MatchType where
  | title
  | shortname
  | description
deriving DecidableEq

/-- `SpecSummary` projection (src/utils/mapper.ts). -/
structure SpecSummary where
  shortname : String
  title : String
  url : String
  nightlyUrl : Option String
  organization : Option String
  status : Option String
  categories : Option (List String)
deriving DecidableEq

/-- `toSpecSummary` (src/utils/mapper.ts): note `status` is computed with
JavaScript `||`, i.e. `spec.release?.status || spec.nightly?.status`. -/
def toSpecSummary (spec : SpecDetail) : SpecSummary :=
  { shortname := spec.shortname
    title := spec.title
    url := spec.url
    nightlyUrl := spec.nightly.map SpecNightly.url
    organization := spec.organization
    status := jsOrUndef (spec.release.bind SpecRelease.status) (spec.nightly.bind SpecNightly.status)
    categories := spec.categories }

/-- A search result (`SpecSearchResult`). -/
structure SpecSearchResult where
  shortname : String
  title : String
  url : String
  nightlyUrl : Option String
  organization : Option String
  status : Option String
  matchType : MatchType
  score : Rat
deriving DecidableEq

/-- The result record pushed by `searchSpecs` for a matching spec. -/
def toSearchResult (spec : SpecDetail) (mt : MatchType) (score : Rat) : SpecSearchResult :=
  { shortname := spec.shortname
    title := spec.title
    url := spec.url
    nightlyUrl := spec.nightly.map SpecNightly.url
    organization := spec.organization
    status := jsOrUndef (spec.release.bind SpecRelease.status) (spec.nightly.bind SpecNightly.status)
    matchType := mt
    score := score }

/-! ## Search ranker (src/tools/search-specs.ts, searchSpecs) -/

/-- The primary score branches of `searchSpecs` (shortname and title branches,
in source order; first qualifying branch wins). -/
def primaryScore (lowerQuery : String) (queryWords : List String)
    (lowerShortname lowerTitle : String) : Rat × MatchType :=
  if lowerShortname = lowerQuery then (100, MatchType.shortname)
  else if jsIncludes lowerShortname lowerQuery then (80, MatchType.shortname)
  else if jsIncludes lowerQuery lowerShortname && decide (lowerShortname.length > 3) then
    (70, MatchType.shortname)
  else if lowerTitle = lowerQuery then (90, MatchType.title)
  else if jsIncludes lowerTitle lowerQuery then (60, MatchType.title)
  else if decide (queryWords.length > 0) && queryWords.all (fun w => jsIncludes lowerTitle w) then
    (50, MatchType.title)
  else if queryWords.length > 0 then
    let matchedWords := queryWords.filter (fun w => jsIncludes lowerTitle w)
    if matchedWords.length > 0 then
      (30 + ((matchedWords.length : Rat) / (queryWords.length : Rat)) * 20, MatchType.title)
    else (0, MatchType.title)
  else (0, MatchType.title)

/-- The full per-record scoring of `searchSpecs`: the primary branches, then
the abstract/description fallback checked only while the score is still 0.
An absent abstract is read as `''` (`spec.abstract?.toLowerCase() || ''`). -/
def scoreSpec (lowerQuery : String) (queryWords : List String) (spec : SpecDetail) :
    Rat × MatchType :=
  let base := primaryScore lowerQuery queryWords (jsToLower spec.shortname) (jsToLower spec.title)
  let lowerAbstract := match spec.abstract with
    | some a => jsToLower a
    | none => ""
  if base.1 = 0 then
    if jsIncludes lowerAbstract lowerQuery then (25, MatchType.description)
    else if queryWords.length > 0 then
      let matchedWords := queryWords.filter (fun w => jsIncludes lowerAbstract w)
      if (matchedWords.length : Rat) ≥ (queryWords.length : Rat) / 2 then
        (15 + ((matchedWords.length : Rat) / (queryWords.length : Rat)) * 10,
          MatchType.description)
      else base
    else base
  else base

/-- The comparator of `results.sort((a, b) => b.score - a.score)`: `a` may stay
before `b` iff `b.score ≤ a.score` (descending, stable). -/
def scoreDescLE (a b : SpecSearchResult) : Bool := decide (b.score ≤ a.score)

/-- The `results` array of `searchSpecs` before sorting: one entry per record
whose score is positive, in collection order. -/
def searchResultsRaw (specs : List SpecDetail) (query : String) : List SpecSearchResult :=
  specs.filterMap (fun spec =>
    let sm := scoreSpec (jsToLower query) (queryWordsOf (jsToLower query)) spec
    if sm.1 > 0 then some (toSearchResult spec sm.2 sm.1) else none)

/-- `searchSpecs` before the final `slice(0, limit)`: score every record, keep
the positive scores, sort by score descending (stable). -/
def searchAll (specs : List SpecDetail) (query : String) : List SpecSearchResult :=
  (searchResultsRaw specs query).mergeSort scoreDescLE

/-- `searchSpecs(query, limit)` (src/tools/search-specs.ts). -/
def searchSpecs (specs : List SpecDetail) (query : String) (limit : Nat) :
    List SpecSearchResult :=
  (searchAll specs query).take limit

/-! ## Spec resolver (src/data/loader.ts) -/

/-- JavaScript `Map.set` on an association list: overwrite an existing key in
place, otherwise append. -/
def mapSet : List (String × SpecDetail) → String → SpecDetail → List (String × SpecDetail)
  | [], k, v => [(k, v)]
  | (k', v') :: rest, k, v =>
    if k' = k then (k, v) :: rest else (k', v') :: mapSet rest k v

/-- JavaScript `Map.get`. -/
def mapGet (m : List (String × SpecDetail)) (k : String) : Option SpecDetail :=
  (m.find? (fun p => p.1 == k)).map Prod.snd

/-- JavaScript `Map.has`. -/
def mapHas (m : List (String × SpecDetail)) (k : String) : Bool :=
  (m.find? (fun p => p.1 == k)).isSome

/-- `buildSpecIndices` (src/data/loader.ts): the exact-shortname index
(`specsIndex.set`, so the last record under a shortname wins) and the
series-alias index (`if (!seriesIndex.has(...)) seriesIndex.set(...)`, so the
first record carrying an alias wins; the truthiness test on
`spec.series?.shortname` skips empty aliases).  `indexStep` is the loop body,
`buildSpecIndices` the loop over the collection. -/
def indexStep (idx : List (String × SpecDetail) × List (String × SpecDetail))
    (s : SpecDetail) : List (String × SpecDetail) × List (String × SpecDetail) :=
  (mapSet idx.1 s.shortname s,
    match s.series with
    | some ser =>
      if ser.shortname ≠ "" then
        if mapHas idx.2 ser.shortname then idx.2 else mapSet idx.2 ser.shortname s
      else idx.2
    | none => idx.2)

def buildSpecIndices (specs : List SpecDetail) :
    List (String × SpecDetail) × List (String × SpecDetail) :=
  specs.foldl indexStep ([], [])

/-- `findSpec` (src/data/loader.ts): exact index lookup, then series index
lookup, then a linear substring scan in collection order. -/
def findSpec (specs : List SpecDetail) (ident : String) : Option SpecDetail :=
  let idx := buildSpecIndices specs
  match mapGet idx.1 ident with
  | some s => some s
  | none =>
    match mapGet idx.2 ident with
    | some s => some s
    | none =>
      specs.find? (fun s => jsIncludes s.shortname ident || jsIncludes ident s.shortname)

/-- `quickFindByShortname` (src/tools/search-specs.ts): resolve with `findSpec`
and synthesize a score-100 shortname-match result. -/
def quickFindByShortname (specs : List SpecDetail) (shortname : String) :
    Option SpecSearchResult :=
  match findSpec specs shortname with
  | none => none
  | some spec => some (toSearchResult spec MatchType.shortname 100)

/-! ## WebIDL lookup (src/tools/get-webidl.ts) -/

/-- The loaded WebIDL map is an association list `shortname ↦ idl text`
(JavaScript object keys are unique; lookup is by key). -/
def idlLookup (idl : List (String × String)) (k : String) : Option String :=
  (idl.find? (fun p => p.1 == k)).map Prod.snd

/-- JavaScript truthiness of `idlData[k]`: the key is present and its text is
a nonempty string. -/
def idlTruthy (idl : List (String × String)) (k : String) : Bool :=
  match idlLookup idl k with
  | some v => !(v == "")
  | none => false

/-- The text stored under a key (the code only reads keys it knows exist). -/
def idlGet (idl : List (String × String)) (k : String) : String :=
  (idlLookup idl k).getD ""

/-- The substring scan of `getWebIDL`:
`Object.keys(idlData).filter(key => key.includes(shortname) || shortname.includes(key))`. -/
def matchingKeysOf (idl : List (String × String)) (shortname : String) : List String :=
  (idl.map Prod.fst).filter (fun key => jsIncludes key shortname || jsIncludes shortname key)

/-- JavaScript `array.join(', ')`. -/
def joinKeys : List String → String
  | [] => ""
  | [k] => k
  | k :: rest => k ++ ", " ++ joinKeys rest

/-- The message of the ambiguous-match error thrown by `getWebIDL`. -/
def ambiguousMessage (shortname : String) (keys : List String) : String :=
  "Multiple WebIDL matches found for \"" ++ shortname ++ "\": " ++ joinKeys keys ++
    ". Please specify the exact shortname."

/-- The suggestion list of the not-found error of `getWebIDL`. -/
def notFoundSuggestions (idl : List (String × String)) (specs : List SpecDetail)
    (shortname : String) : List String :=
  ((((specs.filter (fun s => idlTruthy idl s.shortname)).filter (fun s =>
      jsIncludes s.shortname shortname || jsIncludes shortname s.shortname ||
        jsIncludes (jsToLower s.title) (jsToLower shortname))).take 5).map SpecDetail.shortname)

/-- The message of the not-found error of `getWebIDL`. -/
def notFoundMessage (shortname : String) (suggestions : List String) : String :=
  if suggestions.length > 0 then
    "WebIDL not found for \"" ++ shortname ++ "\". Specs with WebIDL that might match: " ++
      joinKeys suggestions
  else
    "WebIDL not found for \"" ++ shortname ++
      "\". This specification might not have WebIDL definitions."

/-- Outcome of `getWebIDL`: the returned text, or one of the two thrown errors. -/
inductive WebIDLOutcome where
  | ok (text : String)
  | ambiguousMatch (message : String) (keys : List String)
  | notFound (message : String) (suggestions : List String)
deriving DecidableEq

/-- The tail of `getWebIDL` after the three exact lookups failed: the substring
scan, then the not-found error. -/
def fallbackScan (idl : List (String × String)) (specs : List SpecDetail)
    (shortname : String) : WebIDLOutcome :=
  let matchingKeys := matchingKeysOf idl shortname
  if matchingKeys.length = 1 then WebIDLOutcome.ok (idlGet idl (matchingKeys.headD ""))
  else if matchingKeys.length > 1 then
    WebIDLOutcome.ambiguousMatch (ambiguousMessage shortname matchingKeys) matchingKeys
  else
    let suggestions := notFoundSuggestions idl specs shortname
    WebIDLOutcome.notFound (notFoundMessage shortname suggestions) suggestions

/-- `getWebIDL` (src/tools/get-webidl.ts): exact key, then the resolved spec's
shortname, then its (truthy) series alias, then the substring scan. -/
def getWebIDL (idl : List (String × String)) (specs : List SpecDetail)
    (shortname : String) : WebIDLOutcome :=
  if idlTruthy idl shortname then WebIDLOutcome.ok (idlGet idl shortname)
  else
    match findSpec specs shortname with
    | some spec =>
      if idlTruthy idl spec.shortname then WebIDLOutcome.ok (idlGet idl spec.shortname)
      else
        match spec.series with
        | some ser =>
          if ser.shortname ≠ "" ∧ idlTruthy idl ser.shortname then
            WebIDLOutcome.ok (idlGet idl ser.shortname)
          else fallbackScan idl specs shortname
        | none => fallbackScan idl specs shortname
    | none => fallbackScan idl specs shortname

/-! ## Dataset cache (src/data/loader.ts, load/clear) -/

/-- An entry of `CSSData.functions` / `types` / `atrules` / `selectors`. -/
structure CSSNamedEntry where
  name : String
  href : Option String
  value : Option String
deriving DecidableEq

/-- A CSS property definition (src/data/loader.ts `CSSPropertyDef`, without the
open index signature; the `syntax` text field is named `syntaxText` here). -/
structure CSSPropertyDef where
  name : String
  href : Option String
  syntaxText : Option String
  initial : Option String
  inherited : Option String
  animationType : Option String
deriving DecidableEq

/-- `CSSData` (src/data/loader.ts). -/
structure CSSData where
  properties : List CSSPropertyDef
  functions : List CSSNamedEntry
  types : List CSSNamedEntry
  selectors : List CSSNamedEntry
  atrules : List CSSNamedEntry
deriving DecidableEq

/-- The empty `CSSData` the loader falls back to on a load failure. -/
def emptyCSSData : CSSData :=
  { properties := [], functions := [], types := [], selectors := [], atrules := [] }

/-- An element definition (src/data/loader.ts `ElementDef`). -/
structure ElementDef where
  name : String
  href : Option String
  interface : Option String
deriving DecidableEq

/-- The `spec` header of `ElementSpecData`. -/
structure ElementSpecInfo where
  title : String
  url : String
deriving DecidableEq

/-- `ElementSpecData` (src/data/loader.ts). -/
structure ElementSpecData where
  spec : ElementSpecInfo
  elements : List ElementDef
deriving DecidableEq

/-- The memoised singleton caches of the loader (`cssPromise`,
`elementsPromise`, `idlPromise`), modelled by their settled values. -/
structure LoaderCache where
  cssCache : Option CSSData
  elementsCache : Option (List (String × ElementSpecData))
  idlCache : Option (List (String × String))
deriving DecidableEq

/-- `loadCSS`: return the memoised value if present; otherwise consult the
underlying source once, degrade to `emptyCSSData` on failure, and memoise
whatever was produced. -/
def loadCSS (fetched : Except String CSSData) (st : LoaderCache) : CSSData × LoaderCache :=
  match st.cssCache with
  | some v => (v, st)
  | none =>
    let v := match fetched with
      | Except.ok d => d
      | Except.error _ => emptyCSSData
    (v, { st with cssCache := some v })

/-- `loadElements`: as `loadCSS`, degrading to the empty map. -/
def loadElements (fetched : Except String (List (String × ElementSpecData)))
    (st : LoaderCache) : List (String × ElementSpecData) × LoaderCache :=
  match st.elementsCache with
  | some v => (v, st)
  | none =>
    let v := match fetched with
      | Except.ok d => d
      | Except.error _ => []
    (v, { st with elementsCache := some v })

/-- `loadWebIDLRaw`: the source lists files whose individual reads may fail and
are skipped; a failure of the listing itself degrades to the empty map. -/
def loadWebIDLRaw (fetched : Except String (List (String × Except String String)))
    (st : LoaderCache) : List (String × String) × LoaderCache :=
  match st.idlCache with
  | some v => (v, st)
  | none =>
    let v := match fetched with
      | Except.ok files => files.filterMap (fun p =>
          match p.2 with
          | Except.ok text => some (p.1, text)
          | Except.error _ => none)
      | Except.error _ => []
    (v, { st with idlCache := some v })

/-- `clearCache`: discard every memoised value. -/
def clearCache (_ : LoaderCache) : LoaderCache :=
  { cssCache := none, elementsCache := none, idlCache := none }

/-! ## Claim-side restatements

These definitions follow the wording of the specification's claims (not the
source), to be compared with the definitions above. -/

/-- The primary rows of the C1 scoring table, as the claim words them:
first qualifying row wins, all comparisons case-insensitive. -/
def claimPrimary (q : String) (ws : List String) (sn ti : String) : Rat × MatchType :=
  if sn = q then (100, MatchType.shortname)
  else if jsIncludes sn q then (80, MatchType.shortname)
  else if jsIncludes q sn ∧ sn.length > 3 then (70, MatchType.shortname)
  else if ti = q then (90, MatchType.title)
  else if jsIncludes ti q then (60, MatchType.title)
  else if ws.length > 0 ∧ (∀ w ∈ ws, jsIncludes ti w) then (50, MatchType.title)
  else if ∃ w ∈ ws, jsIncludes ti w then
    (30 + (((ws.filter (fun w => jsIncludes ti w)).length : Rat) / (ws.length : Rat)) * 20,
      MatchType.title)
  else (0, MatchType.title)

/-- The C1 scoring table: the primary rows, and only when they all leave the
score at 0, the abstract rows (25 when the abstract contains the query,
`15 + 10·(matched/total)` when at least half the query words occur in it).
A record without an abstract qualifies for neither abstract row. -/
def claimTableScore (query : String) (spec : SpecDetail) : Rat × MatchType :=
  let q := jsToLower query
  let ws := queryWordsOf q
  let primary := claimPrimary q ws (jsToLower spec.shortname) (jsToLower spec.title)
  if primary.1 ≠ 0 then primary
  else
    match spec.abstract with
    | none => primary
    | some a =>
      let ab := jsToLower a
      if jsIncludes ab q then (25, MatchType.description)
      else if ws.length > 0 then
        let matched := ws.filter (fun w => jsIncludes ab w)
        if 2 * matched.length ≥ ws.length then
          (15 + ((matched.length : Rat) / (ws.length : Rat)) * 10, MatchType.description)
        else primary
      else primary

/-- The resolution order of claim C2, worded from the claim: exact shortname,
then exact series alias (first record carrying the alias), then the first
record in collection order matching the substring test in either direction. -/
def findSpecClaim (specs : List SpecDetail) (ident : String) : Option SpecDetail :=
  match specs.find? (fun s => s.shortname == ident) with
  | some s => some s
  | none =>
    match specs.find? (fun s => seriesShortOf s == some ident) with
    | some s => some s
    | none =>
      specs.find? (fun s => jsIncludes s.shortname ident || jsIncludes ident s.shortname)

/-- Claim C3's description of `quickFindByShortname`: only the exact-shortname
and series-alias index lookups, no substring matching; a score-100
shortname-match result for the resolved record, otherwise no result. -/
def quickFindClaim (specs : List SpecDetail) (shortname : String) :
    Option SpecSearchResult :=
  let idx := buildSpecIndices specs
  match mapGet idx.1 shortname with
  | some spec => some (toSearchResult spec MatchType.shortname 100)
  | none =>
    match mapGet idx.2 shortname with
    | some spec => some (toSearchResult spec MatchType.shortname 100)
    | none => none

/-- Claim C10's description of the projected `status` field: the release
status whenever the record has one, otherwise the nightly status. -/
def claimStatus (spec : SpecDetail) : Option String :=
  match spec.release.bind SpecRelease.status with
  | some s => some s
  | none => spec.nightly.bind SpecNightly.status

/-! ## Concrete fixtures used by witnesses and counterexamples -/

/-- A record shaped like the `fetch` specification record. -/
def demoFetchSpec : SpecDetail :=
  { shortname := "fetch"
    title := "Fetch Standard"
    url := "https://fetch.spec.whatwg.org/"
    abstract := some "The Fetch standard defines requests, responses, and the process that binds them: fetching."
    organization := some "WHATWG"
    release := none
    nightly := some { url := "https://fetch.spec.whatwg.org/", status := some "Living Standard" }
    series := some { shortname := "fetch", currentSpecification := some "fetch" }
    categories := some ["browser"] }

/-- Two versioned records sharing the series alias `service-workers`. -/
def demoSW1 : SpecDetail :=
  { shortname := "service-workers-1"
    title := "Service Workers 1"
    url := "https://www.w3.org/TR/service-workers-1/"
    abstract := none
    organization := some "W3C"
    release := some { url := "https://www.w3.org/TR/service-workers-1/", status := some "Candidate Recommendation" }
    nightly := some { url := "https://w3c.github.io/ServiceWorker/", status := some "Editor's Draft" }
    series := some { shortname := "service-workers", currentSpecification := some "service-workers" }
    categories := some ["browser"] }

/-- Second versioned record with the same series alias as `demoSW1`. -/
def demoSW2 : SpecDetail :=
  { shortname := "service-workers-2"
    title := "Service Workers 2"
    url := "https://www.w3.org/TR/service-workers-2/"
    abstract := none
    organization := some "W3C"
    release := none
    nightly := some { url := "https://w3c.github.io/ServiceWorker/v2/", status := some "Editor's Draft" }
    series := some { shortname := "service-workers", currentSpecification := some "service-workers" }
    categories := some ["browser"] }

/-- A record whose release carries an empty `status` string while the nightly
status is present (the C10 counterexample input). -/
def demoStatusSpec : SpecDetail :=
  { shortname := "demo-status"
    title := "Demo Status Spec"
    url := "https://example.org/demo-status/"
    abstract := none
    organization := some "W3C"
    release := some { url := "https://example.org/release/", status := some "" }
    nightly := some { url := "https://example.org/nightly/", status := some "ED" }
    series := none
    categories := none }

/-- A WebIDL map with two keys that both substring-match `css-fonts`. -/
def demoIdl : List (String × String) :=
  [("css-fonts-4", "interface FontFace {};"), ("css-fonts-5", "interface FontFace {};")]

/-! ## Basic facts about the string primitives -/

theorem jsIncludes_empty_pat (s : String) : jsIncludes s "" = true := by
  show charsInfixOf ("" : String).data s.data = true
  cases s.data with
  | nil => rfl
  | cons c cs => rfl

theorem jsIncludes_empty_str (q : String) : jsIncludes "" q = true ↔ q = "" := by
  show charsInfixOf q.data ([] : List Char) = true ↔ q = ""
  cases q with
  | mk d =>
    cases d with
    | nil => exact ⟨fun _ => rfl, fun _ => rfl⟩
    | cons c cs =>
      constructor
      · intro h
        exact Bool.noConfusion h
      · intro h
        exact List.noConfusion (congrArg String.data h)

theorem queryWordsOf_length_gt (lowerQuery : String) :
    ∀ w ∈ queryWordsOf lowerQuery, w.length > 2 := by
  intro w hw
  have := List.of_mem_filter hw
  simpa using this

/-! ## Sortedness of search results -/

theorem searchAll_pairwise (specs : List SpecDetail) (query : String) :
    List.Pairwise (fun a b => b.score ≤ a.score) (searchAll specs query) := by
  have h := @List.sorted_mergeSort SpecSearchResult scoreDescLE
    (fun a b c hab hbc => by
      simp only [scoreDescLE, decide_eq_true_eq] at *
      exact le_trans hbc hab)
    (fun a b => by
      simp only [scoreDescLE, Bool.or_eq_true, decide_eq_true_eq]
      exact le_total b.score a.score)
    (searchResultsRaw specs query)
  exact h.imp (fun hab => by simpa [scoreDescLE] using hab)

/-- C4: for every query and limit, the list returned by `searchSpecs` is
sorted by non-increasing score — for every pair of adjacent positions in the
result list, the earlier score is at least the later one. -/
theorem searchSpecs_sorted_desc (specs : List SpecDetail) (query : String) (limit : Nat) :
    List.Chain' (fun a b => b.score ≤ a.score) (searchSpecs specs query limit) := by
  have hp := searchAll_pairwise specs query
  exact (List.Pairwise.sublist (List.take_sublist limit _) hp).chain'

/-- C5: for every query and limit `k`, `searchSpecs` returns at most `k`
results, and limit `0` yields the empty list. -/
theorem searchSpecs_respects_limit (specs : List SpecDetail) (query : String) (limit : Nat) :
    (searchSpecs specs query limit).length ≤ limit ∧ searchSpecs specs query 0 = [] := by
  constructor
  · rw [searchSpecs, List.length_take]
    exact min_le_left _ _
  · rfl

/-- C3 counterexample: on a collection holding only the `fetch` record, the
identifier `"fetc"` resolves to no record by the exact-shortname or
series-alias lookups (the claim therefore requires a null result), yet
`quickFindByShortname` returns a result, via the substring fallback of
`findSpec`. -/
theorem quickFind_substring_cex :
    quickFindClaim [demoFetchSpec] "fetc" = none ∧
      (quickFindByShortname [demoFetchSpec] "fetc").isSome = true ∧
      quickFindByShortname [demoFetchSpec] "fetc" ≠ quickFindClaim [demoFetchSpec] "fetc" := by
  refine ⟨by decide, by decide, ?_⟩
  intro h
  rw [show quickFindClaim [demoFetchSpec] "fetc" = none from by decide] at h
  have h2 : (quickFindByShortname [demoFetchSpec] "fetc").isSome = true := by decide
  rw [h] at h2
  exact Bool.noConfusion h2

/-- C3 amended: `quickFindByShortname` bypasses scoring but performs the full
`findSpec` resolution (exact shortname, series alias, then the substring
fallback), and returns the score-100 shortname-match result for the record
`findSpec` resolves, or no result when `findSpec` finds nothing. -/
theorem quickFind_resolves_via_findSpec (specs : List SpecDetail) (shortname : String) :
    quickFindByShortname specs shortname =
      (findSpec specs shortname).map (fun spec => toSearchResult spec MatchType.shortname 100) := by
  unfold quickFindByShortname
  cases findSpec specs shortname with
  | none => rfl
  | some spec => rfl

/-- C10 counterexample: a record whose release carries the empty status string
and whose nightly status is `"ED"`.  The claim requires the projected status
to be the release's status, but `toSpecSummary` (JavaScript `||`) projects the
nightly status. -/
theorem status_precedence_cex :
    claimStatus demoStatusSpec = some "" ∧
      (toSpecSummary demoStatusSpec).status = some "ED" ∧
      (toSpecSummary demoStatusSpec).status ≠ claimStatus demoStatusSpec := by
  refine ⟨rfl, rfl, ?_⟩
  intro h
  have := Option.some.inj h
  exact List.noConfusion (congrArg String.data this)

/-- C10 amended: in the summary and search-result projections the status field
equals the release status whenever that status is present and nonempty;
otherwise it equals the nightly status; and it is absent exactly when the
release status is absent or empty and the nightly status is absent.  Both
projections compute the same status, so a value never mixes sources. -/
theorem status_projection_amended (spec : SpecDetail) (mt : MatchType) (sc : Rat) :
    (toSearchResult spec mt sc).status = (toSpecSummary spec).status ∧
    (∀ s, spec.release.bind SpecRelease.status = some s → s ≠ "" →
      (toSpecSummary spec).status = some s) ∧
    ((spec.release.bind SpecRelease.status = none ∨
        spec.release.bind SpecRelease.status = some "") →
      (toSpecSummary spec).status = spec.nightly.bind SpecNightly.status) ∧
    ((toSpecSummary spec).status = none ↔
      ((spec.release.bind SpecRelease.status = none ∨
          spec.release.bind SpecRelease.status = some "") ∧
        spec.nightly.bind SpecNightly.status = none)) := by
  have hdef : (toSpecSummary spec).status =
      jsOrUndef (spec.release.bind SpecRelease.status) (spec.nightly.bind SpecNightly.status) :=
    rfl
  refine ⟨rfl, ?_, ?_, ?_⟩
  · intro s hs hne
    rw [hdef, hs]
    simp [jsOrUndef, hne]
  · intro h
    rw [hdef]
    rcases h with h | h <;> rw [h] <;> simp [jsOrUndef]
  · rw [hdef]
    cases hr : spec.release.bind SpecRelease.status with
    | none => simp [jsOrUndef]
    | some r =>
      by_cases hre : r = ""
      · subst hre
        simp [jsOrUndef]
      · simp [jsOrUndef, hre]

/-- Witness for the amended C10 theorem at concrete records: a nonempty
release status wins, and with no release the nightly status is used. -/
theorem status_projection_amended_witness :
    (toSpecSummary demoSW1).status = some "Candidate Recommendation" ∧
      (toSpecSummary demoFetchSpec).status = some "Living Standard" :=
  ⟨(status_projection_amended demoSW1 MatchType.title 0).2.1
      "Candidate Recommendation" rfl (by decide),
    ((status_projection_amended demoFetchSpec MatchType.title 0).2.2.1 (Or.inl rfl)).trans rfl⟩

/-- C8: when loading the CSS, elements, or WebIDL dataset fails, the load
resolves to the empty collection instead of propagating the error; the empty
result is memoised, so every later call returns the same settled value with no
retry (whatever the source would do), until `clearCache`, after which the next
access performs a fresh load. -/
theorem load_failure_degrades_and_memoizes (st : LoaderCache) (ec ee ei : String)
    (hc : st.cssCache = none) (he : st.elementsCache = none) (hi : st.idlCache = none) :
    ((loadCSS (Except.error ec) st).1 = emptyCSSData ∧
      (∀ f, loadCSS f (loadCSS (Except.error ec) st).2 =
        (emptyCSSData, (loadCSS (Except.error ec) st).2)) ∧
      (∀ d, (loadCSS (Except.ok d) (clearCache (loadCSS (Except.error ec) st).2)).1 = d)) ∧
    ((loadElements (Except.error ee) st).1 = [] ∧
      (∀ f, loadElements f (loadElements (Except.error ee) st).2 =
        ([], (loadElements (Except.error ee) st).2)) ∧
      (∀ d, (loadElements (Except.ok d) (clearCache (loadElements (Except.error ee) st).2)).1 = d)) ∧
    ((loadWebIDLRaw (Except.error ei) st).1 = [] ∧
      (∀ f, loadWebIDLRaw f (loadWebIDLRaw (Except.error ei) st).2 =
        ([], (loadWebIDLRaw (Except.error ei) st).2)) ∧
      (∀ d, (loadWebIDLRaw (Except.ok d) (clearCache (loadWebIDLRaw (Except.error ei) st).2)).1 =
        d.filterMap (fun p =>
          match p.2 with
          | Except.ok text => some (p.1, text)
          | Except.error _ => none))) := by
  refine ⟨⟨?_, ?_, ?_⟩, ⟨?_, ?_, ?_⟩, ⟨?_, ?_, ?_⟩⟩ <;>
    simp [loadCSS, loadElements, loadWebIDLRaw, clearCache, hc, he, hi]

/-- Witness for C8 at the fresh cache: a failed CSS load yields the empty
tables, a second call returns the memoised empty value, and after `clearCache`
a successful load returns the fresh data. -/
theorem load_failure_witness :
    (loadCSS (Except.error "boom") ⟨none, none, none⟩).1 = emptyCSSData ∧
      loadCSS (Except.ok { emptyCSSData with
          properties := [{ name := "color", href := none, syntaxText := none,
                           initial := none, inherited := none, animationType := none }] })
        (loadCSS (Except.error "boom") ⟨none, none, none⟩).2 =
        (emptyCSSData, (loadCSS (Except.error "boom") ⟨none, none, none⟩).2) := by
  have h := load_failure_degrades_and_memoizes ⟨none, none, none⟩ "boom" "b" "b" rfl rfl rfl
  exact ⟨h.1.1, h.1.2.1 _⟩

/-- When the exact key, the resolved record's shortname and its series alias
all fail to produce WebIDL, `getWebIDL` reaches the substring scan. -/
theorem getWebIDL_eq_fallback (idl : List (String × String)) (specs : List SpecDetail)
    (sn : String)
    (h1 : idlTruthy idl sn = false)
    (h2 : ∀ spec, findSpec specs sn = some spec → idlTruthy idl spec.shortname = false)
    (h3 : ∀ spec ser, findSpec specs sn = some spec → spec.series = some ser →
      ser.shortname = "" ∨ idlTruthy idl ser.shortname = false) :
    getWebIDL idl specs sn = fallbackScan idl specs sn := by
  unfold getWebIDL
  rw [h1]
  simp only [Bool.false_eq_true, if_false]
  cases hf : findSpec specs sn with
  | none => rfl
  | some spec =>
    dsimp only
    rw [h2 spec hf]
    simp only [Bool.false_eq_true, if_false]
    cases hser : spec.series with
    | none => rfl
    | some ser =>
      dsimp only
      rcases h3 spec ser hf hser with h | h
      · rw [if_neg (fun hc => hc.1 h)]
      · rw [if_neg (fun hc => by rw [h] at hc; exact Bool.noConfusion hc.2)]

/-- C7: if `getWebIDL` finds no WebIDL under the exact shortname, the resolved
record's shortname, or its series alias, then: when the substring scan over
the WebIDL keys yields two or more keys it throws the ambiguous-match error
listing all of the overlapping keys, and when the scan yields exactly one key
it returns the text stored under that key. -/
theorem getWebIDL_scan_outcome (idl : List (String × String)) (specs : List SpecDetail)
    (sn : String)
    (h1 : idlTruthy idl sn = false)
    (h2 : ∀ spec, findSpec specs sn = some spec → idlTruthy idl spec.shortname = false)
    (h3 : ∀ spec ser, findSpec specs sn = some spec → spec.series = some ser →
      ser.shortname = "" ∨ idlTruthy idl ser.shortname = false) :
    ((matchingKeysOf idl sn).length ≥ 2 →
      getWebIDL idl specs sn =
        WebIDLOutcome.ambiguousMatch (ambiguousMessage sn (matchingKeysOf idl sn))
          (matchingKeysOf idl sn)) ∧
    (∀ k, matchingKeysOf idl sn = [k] →
      getWebIDL idl specs sn = WebIDLOutcome.ok (idlGet idl k)) := by
  rw [getWebIDL_eq_fallback idl specs sn h1 h2 h3]
  constructor
  · intro hlen
    unfold fallbackScan
    rw [if_neg (by omega), if_pos (by omega)]
  · intro k hk
    unfold fallbackScan
    rw [hk]
    rfl

/-- Witness for C7: two WebIDL keys both substring-match `css-fonts`, the
collection is empty, so all exact lookups fail and the ambiguous-match error
lists both keys. -/
theorem getWebIDL_scan_outcome_witness :
    getWebIDL demoIdl [] "css-fonts" =
      WebIDLOutcome.ambiguousMatch (ambiguousMessage "css-fonts" (matchingKeysOf demoIdl "css-fonts"))
        (matchingKeysOf demoIdl "css-fonts") := by
  have hnone : findSpec ([] : List SpecDetail) "css-fonts" = none := rfl
  have h := getWebIDL_scan_outcome demoIdl [] "css-fonts" (by decide)
    (fun spec hs => by rw [hnone] at hs; exact Option.noConfusion hs)
    (fun spec ser hs _ => by rw [hnone] at hs; exact Option.noConfusion hs)
  exact h.1 (by decide)

/-! ## Index characterisations (src/data/loader.ts) -/

theorem mapGet_nil (k : String) : mapGet [] k = none := rfl

theorem mapGet_mapSet (m : List (String × SpecDetail)) (k : String) (v : SpecDetail)
    (k' : String) : mapGet (mapSet m k v) k' = if k' = k then some v else mapGet m k' := by
  induction m with
  | nil =>
    simp only [mapSet, mapGet, List.find?]
    by_cases h : k = k'
    · rw [show (k == k') = true from beq_iff_eq.mpr h, if_pos h.symm]
      rfl
    · rw [show (k == k') = false from beq_eq_false_iff_ne.mpr h,
        if_neg (fun hh => h hh.symm)]
  | cons p rest ih =>
    obtain ⟨a, b⟩ := p
    by_cases hak : a = k
    · subst hak
      simp only [mapSet, if_pos rfl, mapGet, List.find?]
      by_cases h : a = k'
      · rw [show (a == k') = true from beq_iff_eq.mpr h, if_pos h.symm]
        rfl
      · rw [show (a == k') = false from beq_eq_false_iff_ne.mpr h,
          if_neg (fun hh => h hh.symm)]
    · simp only [mapSet, if_neg hak, mapGet, List.find?] at ih ⊢
      by_cases h : a = k'
      · rw [show (a == k') = true from beq_iff_eq.mpr h,
          if_neg (fun hh => hak (h.trans hh))]
      · rw [show (a == k') = false from beq_eq_false_iff_ne.mpr h]
        exact ih

theorem mapHas_eq_isSome (m : List (String × SpecDetail)) (k : String) :
    mapHas m k = (mapGet m k).isSome := by
  unfold mapHas mapGet
  cases m.find? (fun p => p.1 == k) <;> rfl

theorem specsIndex_foldl (specs : List SpecDetail) (k : String) :
    ∀ acc, mapGet (specs.foldl indexStep acc).1 k =
      (specs.reverse.find? (fun s => s.shortname == k)).or (mapGet acc.1 k) := by
  induction specs with
  | nil =>
    intro acc
    rfl
  | cons s rest ih =>
    intro acc
    rw [List.foldl_cons, ih (indexStep acc s)]
    have e1 : (indexStep acc s).1 = mapSet acc.1 s.shortname s := rfl
    rw [e1, mapGet_mapSet, List.reverse_cons, List.find?_append]
    cases hr : rest.reverse.find? (fun s => s.shortname == k) with
    | some t => rfl
    | none =>
      simp only [Option.none_or]
      by_cases hks : s.shortname = k
      · have hf : List.find? (fun t => t.shortname == k) [s] = some s := by
          simp only [List.find?]
          rw [show (s.shortname == k) = true from beq_iff_eq.mpr hks]
        rw [hf, if_pos hks.symm]
        rfl
      · have hf : List.find? (fun t => t.shortname == k) [s] = none := by
          simp only [List.find?]
          rw [show (s.shortname == k) = false from beq_eq_false_iff_ne.mpr hks]
        rw [hf, if_neg (fun hh => hks hh.symm), Option.none_or]

theorem seriesIndex_foldl (specs : List SpecDetail) (k : String) (hk : k ≠ "") :
    ∀ acc, mapGet (specs.foldl indexStep acc).2 k =
      (mapGet acc.2 k).or (specs.find? (fun s => seriesShortOf s == some k)) := by
  induction specs with
  | nil =>
    intro acc
    rw [List.foldl_nil, show List.find? (fun s => seriesShortOf s == some k) [] = none from rfl,
      Option.or_none]
  | cons s rest ih =>
    intro acc
    rw [List.foldl_cons, ih (indexStep acc s)]
    cases hser : s.series with
    | none =>
      have e2 : (indexStep acc s).2 = acc.2 := by simp [indexStep, hser]
      have hp : (seriesShortOf s == some k) = false := by simp [seriesShortOf, hser]
      rw [e2, List.find?_cons, hp]
    | some ser =>
      have hp : (seriesShortOf s == some k) = (ser.shortname == k) := by
        simp [seriesShortOf, hser]
      by_cases hse : ser.shortname = k
      · have hne : ser.shortname ≠ "" := by rw [hse]; exact hk
        have e2 : (indexStep acc s).2 =
            if mapHas acc.2 ser.shortname then acc.2 else mapSet acc.2 ser.shortname s := by
          simp [indexStep, hser, hne]
        rw [e2]
        by_cases hh : mapHas acc.2 ser.shortname
        · rw [if_pos hh]
          have : (mapGet acc.2 k).isSome := by
            rw [← mapHas_eq_isSome, ← hse]
            exact hh
          obtain ⟨v, hv⟩ := Option.isSome_iff_exists.mp this
          rw [hv]
          rfl
        · rw [if_neg hh, hse, mapGet_mapSet, if_pos rfl]
          have hg : mapGet acc.2 k = none := by
            rw [hse] at hh
            rw [mapHas_eq_isSome] at hh
            exact Option.not_isSome_iff_eq_none.mp hh
          rw [hg, List.find?_cons, hp, show (ser.shortname == k) = true from by simp [hse]]
          rfl
      · have e2k : mapGet (indexStep acc s).2 k = mapGet acc.2 k := by
          show mapGet (match s.series with
            | some ser =>
              if ser.shortname ≠ "" then
                if mapHas acc.2 ser.shortname then acc.2 else mapSet acc.2 ser.shortname s
              else acc.2
            | none => acc.2) k = mapGet acc.2 k
          rw [hser]
          by_cases hne : ser.shortname = ""
          · simp [hne]
          · simp only [ne_eq, hne, not_false_eq_true, if_true]
            by_cases hh : mapHas acc.2 ser.shortname
            · rw [if_pos hh]
            · rw [if_neg hh, mapGet_mapSet, if_neg (fun hh2 : k = ser.shortname => hse hh2.symm)]
        rw [e2k, List.find?_cons, hp, show (ser.shortname == k) = false from by simp [hse]]

theorem find?_reverse_of_unique {p : SpecDetail → Bool} {l : List SpecDetail}
    (h : ∀ a ∈ l, ∀ b ∈ l, p a → p b → a = b) :
    l.reverse.find? p = l.find? p := by
  cases hf : l.find? p with
  | none =>
    apply List.find?_eq_none.mpr
    intro x hx
    exact List.find?_eq_none.mp hf x (List.mem_reverse.mp hx)
  | some s =>
    have hps : p s := List.find?_some hf
    have hms : s ∈ l := List.mem_of_find?_eq_some hf
    cases hr : l.reverse.find? p with
    | none =>
      exact absurd hps (List.find?_eq_none.mp hr s (List.mem_reverse.mpr hms))
    | some t =>
      have hpt : p t := List.find?_some hr
      have hmt : t ∈ l := List.mem_reverse.mp (List.mem_of_find?_eq_some hr)
      rw [h t hmt s hms hpt hps]

theorem mapGet_specsIndex (specs : List SpecDetail) (k : String) :
    mapGet (buildSpecIndices specs).1 k = specs.reverse.find? (fun s => s.shortname == k) := by
  rw [buildSpecIndices, specsIndex_foldl specs k ([], []), mapGet_nil, Option.or_none]

theorem mapGet_seriesIndex (specs : List SpecDetail) (k : String) (hk : k ≠ "") :
    mapGet (buildSpecIndices specs).2 k =
      specs.find? (fun s => seriesShortOf s == some k) := by
  rw [buildSpecIndices, seriesIndex_foldl specs k hk ([], []), mapGet_nil, Option.none_or]

/-- C2: `findSpec` resolves in the fixed order exact shortname, exact series
alias (first record carrying the alias), then the first record in collection
iteration order matching the substring test in either direction; `none` when
no step matches.  Stated as equality with the claim-side resolution for any
collection with unique shortnames (the data-model invariant) and any nonempty
identifier (the validation-boundary precondition). -/
theorem findSpec_resolution_order (specs : List SpecDetail) (ident : String)
    (hnodup : (specs.map SpecDetail.shortname).Nodup) (hident : ident ≠ "") :
    findSpec specs ident = findSpecClaim specs ident := by
  have h1 : mapGet (buildSpecIndices specs).1 ident =
      specs.find? (fun s => s.shortname == ident) := by
    rw [mapGet_specsIndex]
    apply find?_reverse_of_unique
    intro a ha b hb hpa hpb
    have hab : a.shortname = b.shortname := by
      rw [beq_iff_eq.mp hpa, beq_iff_eq.mp hpb]
    exact List.inj_on_of_nodup_map hnodup ha hb hab
  have h2 := mapGet_seriesIndex specs ident hident
  simp only [findSpec, findSpecClaim]
  rw [h1, h2]

/-- Witness for C2 on a concrete two-record collection and identifiers that
exercise the alias and substring steps. -/
theorem findSpec_resolution_order_witness :
    findSpec [demoSW1, demoSW2] "service-workers" =
      findSpecClaim [demoSW1, demoSW2] "service-workers" ∧
    findSpec [demoFetchSpec, demoSW1] "fetc" = findSpecClaim [demoFetchSpec, demoSW1] "fetc" :=
  ⟨findSpec_resolution_order [demoSW1, demoSW2] "service-workers" (by decide) (by decide),
    findSpec_resolution_order [demoFetchSpec, demoSW1] "fetc" (by decide) (by decide)⟩

/-- C6: for a series alias `A` (nonempty, per the validation boundary) that is
not the exact shortname of any record, `findSpec A` returns the first record
in collection iteration order whose series alias equals `A` — the series index
is populated first-writer-wins. -/
theorem findSpec_series_alias (specs : List SpecDetail) (A : String) (hA : A ≠ "")
    (hnoshort : ∀ s ∈ specs, s.shortname ≠ A)
    (hsome : ∃ s ∈ specs, seriesShortOf s = some A) :
    ∃ s, findSpec specs A = some s ∧ seriesShortOf s = some A ∧
      specs.find? (fun t => seriesShortOf t == some A) = some s := by
  have h1 : mapGet (buildSpecIndices specs).1 A = none := by
    rw [mapGet_specsIndex]
    apply List.find?_eq_none.mpr
    intro x hx
    simp only [beq_iff_eq]
    exact hnoshort x (List.mem_reverse.mp hx)
  have h2 := mapGet_seriesIndex specs A hA
  obtain ⟨s0, hs0, hser0⟩ := hsome
  have hsome2 : (specs.find? (fun t => seriesShortOf t == some A)).isSome := by
    apply List.find?_isSome.mpr
    exact ⟨s0, hs0, by simp [hser0]⟩
  obtain ⟨s, hs⟩ := Option.isSome_iff_exists.mp hsome2
  refine ⟨s, ?_, ?_, hs⟩
  · simp only [findSpec]
    rw [h1, h2, hs]
  · have := List.find?_some hs
    simpa using this

/-- Witness for C6: two records share the alias `service-workers`; `findSpec`
returns the first. -/
theorem findSpec_series_alias_witness :
    ∃ s, findSpec [demoSW1, demoSW2] "service-workers" = some s ∧
      seriesShortOf s = some "service-workers" ∧
      List.find? (fun t => seriesShortOf t == some "service-workers") [demoSW1, demoSW2] =
        some s :=
  findSpec_series_alias [demoSW1, demoSW2] "service-workers" (by decide) (by decide)
    ⟨demoSW1, by simp, by decide⟩

/-! ## Case-insensitivity of the ranker -/

theorem charToNat_ofNat_valid (n : Nat) (h : n.isValidChar) : (Char.ofNat n).toNat = n := by
  unfold Char.ofNat
  rw [dif_pos h]
  simp [Char.ofNatAux, Char.toNat, UInt32.toNat]

theorem char_toLower_eq_of (c : Char) (h : c.toNat ≥ 65 ∧ c.toNat ≤ 90) :
    c.toLower = Char.ofNat (c.toNat + 32) := by
  simp only [Char.toLower]
  rw [if_pos h]

theorem char_toLower_eq_self (c : Char) (h : ¬(c.toNat ≥ 65 ∧ c.toNat ≤ 90)) :
    c.toLower = c := by
  simp only [Char.toLower]
  rw [if_neg h]

theorem char_toUpper_eq_of (c : Char) (h : c.toNat ≥ 97 ∧ c.toNat ≤ 122) :
    c.toUpper = Char.ofNat (c.toNat - 32) := by
  simp only [Char.toUpper]
  rw [if_pos h]

theorem char_toUpper_eq_self (c : Char) (h : ¬(c.toNat ≥ 97 ∧ c.toNat ≤ 122)) :
    c.toUpper = c := by
  simp only [Char.toUpper]
  rw [if_neg h]

theorem char_toLower_toUpper (c : Char) : c.toUpper.toLower = c.toLower := by
  by_cases h : c.toNat ≥ 97 ∧ c.toNat ≤ 122
  · rw [char_toUpper_eq_of c h]
    have hv : (c.toNat - 32).isValidChar := Or.inl (by omega)
    have ht : (Char.ofNat (c.toNat - 32)).toNat = c.toNat - 32 := charToNat_ofNat_valid _ hv
    rw [char_toLower_eq_of _ (by omega), ht,
      show c.toNat - 32 + 32 = c.toNat from by omega, Char.ofNat_toNat,
      char_toLower_eq_self c (by omega)]
  · rw [char_toUpper_eq_self c h]

theorem char_toLower_idem (c : Char) : c.toLower.toLower = c.toLower := by
  by_cases h : c.toNat ≥ 65 ∧ c.toNat ≤ 90
  · rw [char_toLower_eq_of c h]
    have hv : (c.toNat + 32).isValidChar := Or.inl (by omega)
    have ht : (Char.ofNat (c.toNat + 32)).toNat = c.toNat + 32 := charToNat_ofNat_valid _ hv
    exact char_toLower_eq_self _ (by rw [ht]; omega)
  · rw [char_toLower_eq_self c h, char_toLower_eq_self c h]

theorem jsToLower_jsToUpper (q : String) : jsToLower (jsToUpper q) = jsToLower q := by
  show String.mk ((q.data.map Char.toUpper).map Char.toLower) = String.mk (q.data.map Char.toLower)
  rw [List.map_map]
  exact congrArg String.mk (List.map_congr_left (fun c _ => char_toLower_toUpper c))

theorem jsToLower_idem (q : String) : jsToLower (jsToLower q) = jsToLower q := by
  show String.mk ((q.data.map Char.toLower).map Char.toLower) = String.mk (q.data.map Char.toLower)
  rw [List.map_map]
  exact congrArg String.mk (List.map_congr_left (fun c _ => char_toLower_idem c))

theorem searchAll_congr (specs : List SpecDetail) {q1 q2 : String}
    (h : jsToLower q1 = jsToLower q2) : searchAll specs q1 = searchAll specs q2 := by
  unfold searchAll searchResultsRaw
  rw [h]

/-- C9: search is case-insensitive — uppercasing or lowercasing the query
leaves the result list (members, order, and every score) unchanged. -/
theorem searchSpecs_case_insensitive (specs : List SpecDetail) (query : String) (limit : Nat) :
    searchSpecs specs (jsToUpper query) limit = searchSpecs specs query limit ∧
      searchSpecs specs (jsToLower query) limit = searchSpecs specs query limit := by
  constructor
  · unfold searchSpecs
    rw [searchAll_congr specs (jsToLower_jsToUpper query)]
  · unfold searchSpecs
    rw [searchAll_congr specs (jsToLower_idem query)]

/-! ## The scoring table (claim C1) -/

theorem rat_ratio_nonneg (m t : Nat) : (0 : Rat) ≤ (m : Rat) / (t : Rat) :=
  div_nonneg (Nat.cast_nonneg m) (Nat.cast_nonneg t)

theorem rat_ratio_le_one (m t : Nat) (hm : m ≤ t) (ht : 0 < t) :
    (m : Rat) / (t : Rat) ≤ 1 := by
  rw [div_le_one (by exact_mod_cast ht)]
  exact_mod_cast hm

theorem primaryScore_eq_claim (q : String) (ws : List String) (sn ti : String) :
    primaryScore q ws sn ti = claimPrimary q ws sn ti := by
  simp only [primaryScore, claimPrimary]
  by_cases h1 : sn = q
  · rw [if_pos h1, if_pos h1]
  · rw [if_neg h1, if_neg h1]
    by_cases h2 : jsIncludes sn q = true
    · rw [if_pos h2, if_pos h2]
    · rw [if_neg h2, if_neg h2]
      by_cases h3 : jsIncludes q sn = true ∧ sn.length > 3
      · have h3' : (jsIncludes q sn && decide (sn.length > 3)) = true := by
          rw [Bool.and_eq_true, decide_eq_true_eq]
          exact h3
        rw [if_pos h3', if_pos h3]
      · have h3' : ¬((jsIncludes q sn && decide (sn.length > 3)) = true) := by
          rw [Bool.and_eq_true, decide_eq_true_eq]
          exact h3
        rw [if_neg h3', if_neg h3]
        by_cases h4 : ti = q
        · rw [if_pos h4, if_pos h4]
        · rw [if_neg h4, if_neg h4]
          by_cases h5 : jsIncludes ti q = true
          · rw [if_pos h5, if_pos h5]
          · rw [if_neg h5, if_neg h5]
            by_cases h6 : ws.length > 0 ∧ ∀ w ∈ ws, jsIncludes ti w = true
            · have h6' : (decide (ws.length > 0) && ws.all (fun w => jsIncludes ti w)) = true := by
                rw [Bool.and_eq_true, decide_eq_true_eq, List.all_eq_true]
                exact h6
              rw [if_pos h6', if_pos h6]
            · have h6' : ¬((decide (ws.length > 0) && ws.all (fun w => jsIncludes ti w)) = true) := by
                rw [Bool.and_eq_true, decide_eq_true_eq, List.all_eq_true]
                exact h6
              rw [if_neg h6', if_neg h6]
              by_cases h7 : ∃ w ∈ ws, jsIncludes ti w = true
              · have hws : ws.length > 0 := by
                  obtain ⟨w, hw, _⟩ := h7
                  exact List.length_pos.mpr (List.ne_nil_of_mem hw)
                have hm : (ws.filter (fun w => jsIncludes ti w)).length > 0 := by
                  apply List.length_pos.mpr
                  intro hnil
                  obtain ⟨w, hw, hp⟩ := h7
                  exact List.filter_eq_nil_iff.mp hnil w hw hp
                rw [if_pos hws, if_pos hm, if_pos h7]
              · rw [if_neg h7]
                by_cases hws : ws.length > 0
                · have hm : ¬((ws.filter (fun w => jsIncludes ti w)).length > 0) := by
                    intro hl
                    obtain ⟨w, hw⟩ := List.exists_mem_of_length_pos hl
                    have := List.mem_filter.mp hw
                    exact h7 ⟨w, this.1, this.2⟩
                  rw [if_pos hws, if_neg hm]
                · rw [if_neg hws]

theorem claimPrimary_fst_le_90 (q : String) (ws : List String) (sn ti : String)
    (hne : sn ≠ q) : (claimPrimary q ws sn ti).1 ≤ 90 := by
  simp only [claimPrimary]
  split_ifs with h1 h2 h3 h4 h5 h6 h7
  · exact absurd h1 hne
  · norm_num
  · norm_num
  · norm_num
  · norm_num
  · norm_num
  · have hws : ws.length > 0 := by
      obtain ⟨w, hw, _⟩ := h7
      exact List.length_pos.mpr (List.ne_nil_of_mem hw)
    have hle := rat_ratio_le_one (ws.filter (fun w => jsIncludes ti w)).length ws.length
      (List.length_filter_le _ _) hws
    show (30 : Rat) + _ * 20 ≤ 90
    nlinarith [rat_ratio_nonneg (ws.filter (fun w => jsIncludes ti w)).length ws.length]
  · norm_num

theorem claimPrimary_zero_no_sub (q : String) (ws : List String) (sn ti : String)
    (h : (claimPrimary q ws sn ti).1 = 0) : jsIncludes sn q = false := by
  simp only [claimPrimary] at h
  split_ifs at h with h1 h2 h3 h4 h5 h6 h7
  · norm_num at h
  · norm_num at h
  · norm_num at h
  · norm_num at h
  · norm_num at h
  · norm_num at h
  · exfalso
    have hws : ws.length > 0 := by
      obtain ⟨w, hw, _⟩ := h7
      exact List.length_pos.mpr (List.ne_nil_of_mem hw)
    have := rat_ratio_nonneg (ws.filter (fun w => jsIncludes ti w)).length ws.length
    have h' : (30 : Rat) + ((ws.filter (fun w => jsIncludes ti w)).length : Rat) /
        (ws.length : Rat) * 20 = 0 := h
    nlinarith
  · exact Bool.not_eq_true _ ▸ Bool.of_not_eq_true h2

theorem rat_half_iff (m t : Nat) : ((m : Rat) ≥ (t : Rat) / 2) ↔ 2 * m ≥ t := by
  rw [ge_iff_le, div_le_iff₀ (by norm_num : (0 : Rat) < 2), mul_comm]
  norm_cast

theorem scoreSpec_exact (lq : String) (ws : List String) (spec : SpecDetail)
    (heq : jsToLower spec.shortname = lq) :
    scoreSpec lq ws spec = (100, MatchType.shortname) := by
  have hbase : primaryScore lq ws (jsToLower spec.shortname) (jsToLower spec.title) =
      (100, MatchType.shortname) := by
    simp only [primaryScore]
    rw [if_pos heq]
  simp only [scoreSpec, hbase]
  norm_num

theorem scoreSpec_fst_le_90 (lq : String) (ws : List String) (spec : SpecDetail)
    (hne : jsToLower spec.shortname ≠ lq) : (scoreSpec lq ws spec).1 ≤ 90 := by
  have hb := claimPrimary_fst_le_90 lq ws (jsToLower spec.shortname) (jsToLower spec.title) hne
  rw [← primaryScore_eq_claim] at hb
  simp only [scoreSpec]
  cases habs : spec.abstract with
  | none =>
    dsimp only
    split_ifs with h0 ha hw hr
    · norm_num
    · have hle := rat_ratio_le_one (ws.filter (fun w => jsIncludes "" w)).length ws.length
        (List.length_filter_le _ _) hw
      have hge := rat_ratio_nonneg (ws.filter (fun w => jsIncludes "" w)).length ws.length
      dsimp only
      nlinarith
    · exact hb
    · exact hb
    · exact hb
  | some a =>
    dsimp only
    split_ifs with h0 ha hw hr
    · norm_num
    · have hle := rat_ratio_le_one (ws.filter (fun w => jsIncludes (jsToLower a) w)).length
        ws.length (List.length_filter_le _ _) hw
      have hge := rat_ratio_nonneg (ws.filter (fun w => jsIncludes (jsToLower a) w)).length
        ws.length
      dsimp only
      nlinarith
    · exact hb
    · exact hb
    · exact hb

theorem scoreSpec_score_eq_100 (lq : String) (ws : List String) (spec : SpecDetail)
    (h : (scoreSpec lq ws spec).1 = 100) : jsToLower spec.shortname = lq := by
  by_contra hne
  have := scoreSpec_fst_le_90 lq ws spec hne
  rw [h] at this
  norm_num at this

theorem scoreSpec_eq_claimTable (query : String) (spec : SpecDetail) :
    scoreSpec (jsToLower query) (queryWordsOf (jsToLower query)) spec =
      claimTableScore query spec := by
  have hlen : ∀ w ∈ queryWordsOf (jsToLower query), w.length > 2 :=
    queryWordsOf_length_gt (jsToLower query)
  simp only [scoreSpec, claimTableScore]
  rw [primaryScore_eq_claim]
  generalize hq : jsToLower query = q at hlen ⊢
  generalize hws : queryWordsOf q = ws at hlen ⊢
  by_cases h0 : (claimPrimary q ws (jsToLower spec.shortname) (jsToLower spec.title)).1 = 0
  · rw [if_pos h0, if_neg (not_not_intro h0)]
    have hq0 : jsIncludes (jsToLower spec.shortname) q = false :=
      claimPrimary_zero_no_sub q ws _ _ h0
    have hqne : q ≠ "" := by
      intro he
      rw [he, jsIncludes_empty_pat] at hq0
      exact Bool.noConfusion hq0
    cases habs : spec.abstract with
    | some a =>
      dsimp only
      by_cases ha : jsIncludes (jsToLower a) q = true
      · rw [if_pos ha, if_pos ha]
      · rw [if_neg ha, if_neg ha]
        by_cases hw : ws.length > 0
        · rw [if_pos hw, if_pos hw]
          by_cases hr : 2 * (ws.filter (fun w => jsIncludes (jsToLower a) w)).length ≥ ws.length
          · rw [if_pos ((rat_half_iff _ _).mpr hr), if_pos hr]
          · rw [if_neg (fun hc => hr ((rat_half_iff _ _).mp hc)), if_neg hr]
        · rw [if_neg hw, if_neg hw]
    | none =>
      dsimp only
      have hA : ¬(jsIncludes "" q = true) := fun hc => hqne ((jsIncludes_empty_str q).mp hc)
      rw [if_neg hA]
      by_cases hw : ws.length > 0
      · rw [if_pos hw]
        have hfil : ws.filter (fun w => jsIncludes "" w) = [] := by
          apply List.filter_eq_nil_iff.mpr
          intro w hwmem hpw
          have hwe := (jsIncludes_empty_str w).mp hpw
          have hl := hlen w hwmem
          rw [hwe] at hl
          simp [String.length] at hl
        rw [hfil]
        have ht : (0 : Rat) < (ws.length : Rat) := by exact_mod_cast hw
        rw [if_neg ?hcond]
        case hcond =>
          intro hc
          simp only [List.length_nil, Nat.cast_zero, ge_iff_le] at hc
          nlinarith
      · rw [if_neg hw]
  · rw [if_neg h0, if_pos h0]

theorem of_mem_searchResultsRaw (specs : List SpecDetail) (query : String)
    (r : SpecSearchResult) (hr : r ∈ searchResultsRaw specs query) :
    ∃ spec ∈ specs,
      (scoreSpec (jsToLower query) (queryWordsOf (jsToLower query)) spec).1 > 0 ∧
        r = toSearchResult spec
          (scoreSpec (jsToLower query) (queryWordsOf (jsToLower query)) spec).2
          (scoreSpec (jsToLower query) (queryWordsOf (jsToLower query)) spec).1 := by
  unfold searchResultsRaw at hr
  obtain ⟨spec, hs, hf⟩ := List.mem_filterMap.mp hr
  dsimp only at hf
  by_cases hp : (scoreSpec (jsToLower query) (queryWordsOf (jsToLower query)) spec).1 > 0
  · rw [if_pos hp] at hf
    exact ⟨spec, hs, hp, (Option.some.inj hf).symm⟩
  · rw [if_neg hp] at hf
    exact Option.noConfusion hf

theorem searchResultsRaw_length_le (specs : List SpecDetail) (query : String) :
    (searchResultsRaw specs query).length ≤ specs.length :=
  List.length_filterMap_le _ specs

/-- C1: the ranker scores each record by the first qualifying branch of the
fixed priority table with its exact constants (formalised as equality of the
per-record scoring with the claim-side table `claimTableScore`, for every
query and record); in particular a record whose shortname equals the query
case-insensitively is returned with score 100 and matchType shortname (when
shortnames are unique and the limit admits at least one result), and searching
"the fetch api specification" returns the record with lowercase shortname
"fetch" with score 70, matchType shortname (when the limit admits the whole
collection). -/
theorem searchSpecs_scoring (specs : List SpecDetail) (query : String) (limit : Nat) :
    (∀ (q : String) (s : SpecDetail),
        scoreSpec (jsToLower q) (queryWordsOf (jsToLower q)) s = claimTableScore q s) ∧
    (∀ s ∈ specs, jsToLower s.shortname = jsToLower query →
        (∀ t ∈ specs, jsToLower t.shortname = jsToLower query → t = s) →
        1 ≤ limit →
        toSearchResult s MatchType.shortname 100 ∈ searchSpecs specs query limit) ∧
    (∀ s ∈ specs, jsToLower s.shortname = "fetch" → specs.length ≤ limit →
        toSearchResult s MatchType.shortname 70 ∈
          searchSpecs specs "the fetch api specification" limit) := by
  refine ⟨fun q s => scoreSpec_eq_claimTable q s, ?_, ?_⟩
  · intro s hs heq huniq hlim
    have hscore := scoreSpec_exact (jsToLower query) (queryWordsOf (jsToLower query)) s heq
    have hmem_raw : toSearchResult s MatchType.shortname 100 ∈ searchResultsRaw specs query := by
      unfold searchResultsRaw
      apply List.mem_filterMap.mpr
      refine ⟨s, hs, ?_⟩
      dsimp only
      rw [hscore, if_pos (by norm_num : ((100 : Rat), MatchType.shortname).1 > 0)]
    have hperm := List.mergeSort_perm (searchResultsRaw specs query) scoreDescLE
    have hmem : toSearchResult s MatchType.shortname 100 ∈ searchAll specs query :=
      hperm.mem_iff.mpr hmem_raw
    obtain ⟨hd, tl, hcons⟩ : ∃ hd tl, searchAll specs query = hd :: tl := by
      cases hsa : searchAll specs query with
      | nil =>
        rw [hsa] at hmem
        exact absurd hmem (List.not_mem_nil _)
      | cons hd tl => exact ⟨hd, tl, rfl⟩
    have hpair := searchAll_pairwise specs query
    rw [hcons] at hpair hmem
    have hhd : hd = toSearchResult s MatchType.shortname 100 := by
      rcases List.mem_cons.mp hmem with he | htl
      · exact he.symm
      · have h100 : (100 : Rat) ≤ hd.score := by
          have := (List.pairwise_cons.mp hpair).1 _ htl
          simpa [toSearchResult] using this
        have hhdmem : hd ∈ searchResultsRaw specs query := by
          apply hperm.mem_iff.mp
          show hd ∈ searchAll specs query
          rw [hcons]
          exact List.mem_cons_self _ _
        obtain ⟨t, ht, hpos, hteq⟩ := of_mem_searchResultsRaw specs query hd hhdmem
        by_cases hex : jsToLower t.shortname = jsToLower query
        · have hts : t = s := huniq t ht hex
          rw [hts] at hteq
          rw [hteq, scoreSpec_exact (jsToLower query) (queryWordsOf (jsToLower query)) s heq]
        · have hle := scoreSpec_fst_le_90 (jsToLower query) (queryWordsOf (jsToLower query)) t hex
          have hsc : hd.score =
              (scoreSpec (jsToLower query) (queryWordsOf (jsToLower query)) t).1 := by
            rw [hteq]
            rfl
          rw [hsc] at h100
          linarith
    show toSearchResult s MatchType.shortname 100 ∈ (searchAll specs query).take limit
    rw [hcons, ← hhd]
    obtain ⟨m, rfl⟩ : ∃ m, limit = m + 1 := ⟨limit - 1, by omega⟩
    rw [List.take_succ_cons]
    exact List.mem_cons_self _ _
  · intro s hs heq hlim
    have hql : jsToLower "the fetch api specification" = "the fetch api specification" := by
      decide
    have hbase : primaryScore (jsToLower "the fetch api specification")
        (queryWordsOf (jsToLower "the fetch api specification"))
        (jsToLower s.shortname) (jsToLower s.title) = (70, MatchType.shortname) := by
      rw [hql, heq]
      simp only [primaryScore]
      rw [if_neg (by decide), if_neg (by decide), if_pos (by decide)]
    have hscore : scoreSpec (jsToLower "the fetch api specification")
        (queryWordsOf (jsToLower "the fetch api specification")) s =
        (70, MatchType.shortname) := by
      simp only [scoreSpec, hbase]
      norm_num
    have hmem_raw : toSearchResult s MatchType.shortname 70 ∈
        searchResultsRaw specs "the fetch api specification" := by
      unfold searchResultsRaw
      apply List.mem_filterMap.mpr
      refine ⟨s, hs, ?_⟩
      dsimp only
      rw [hscore, if_pos (by norm_num : ((70 : Rat), MatchType.shortname).1 > 0)]
    have hperm := List.mergeSort_perm
      (searchResultsRaw specs "the fetch api specification") scoreDescLE
    have hmem : toSearchResult s MatchType.shortname 70 ∈
        searchAll specs "the fetch api specification" := hperm.mem_iff.mpr hmem_raw
    show toSearchResult s MatchType.shortname 70 ∈
      (searchAll specs "the fetch api specification").take limit
    rw [List.take_of_length_le ?hle]
    · exact hmem
    case hle =>
      have h1 : (searchAll specs "the fetch api specification").length =
          (searchResultsRaw specs "the fetch api specification").length := hperm.length_eq
      have h2 := searchResultsRaw_length_le specs "the fetch api specification"
      omega

/-- Witness for C1 on a one-record collection shaped like the fetch record:
the exact-shortname search returns it with score 100, and the long query
returns it with score 70. -/
theorem searchSpecs_scoring_witness :
    toSearchResult demoFetchSpec MatchType.shortname 100 ∈
        searchSpecs [demoFetchSpec] "fetch" 20 ∧
      toSearchResult demoFetchSpec MatchType.shortname 70 ∈
        searchSpecs [demoFetchSpec] "the fetch api specification" 20 := by
  have h := searchSpecs_scoring [demoFetchSpec] "fetch" 20
  refine ⟨h.2.1 demoFetchSpec (List.mem_singleton.mpr rfl) (by decide) ?_ (by decide),
    h.2.2 demoFetchSpec (List.mem_singleton.mpr rfl) (by decide) (by decide)⟩
  intro t ht _
  exact List.mem_singleton.mp ht
